import Mathlib

/-!
Verification of the MLOEL heart-disease pipeline (src/oel.ipynb).

The script is a linear pandas/scikit-learn pipeline:
Loader → Cleaner (`replace('?', nan)`, `dropna`) → Encoder (`pd.get_dummies`
with `drop_first=True` on the four categorical columns, binary `target` from
`num`) → Splitter (`train_test_split(test_size=0.2, random_state=42)`) →
Scaler (`StandardScaler`) → three classifiers (logistic regression, random
forest, SVC) → Evaluator (`np.argmax` over the accuracy list).

We embed each stage as an executable Lean function over an explicit
column-major data-frame model and prove or refute the specification's
claims about them.
-/

/-- One cell of the data frame: a parsed numeric value, a raw string
(e.g. the missing-value sentinel `"?"`), or a null (pandas `NaN`). -/
inductive Cell where
  | val (q : ℚ)
  | strv (s : String)
  | null
deriving DecidableEq

/-- Column names of the pipeline's data frame.  Pandas uses strings such as
`"cp_2.0"` for indicator columns; we model the indicator column produced for
value `v` of source column `src` as the structured name `dummy src v`, which
preserves exactly the grouping and identity information of the string name. -/
inductive ColName where
  | age | sex | cp | trestbps | chol | fbs | restecg | thalach
  | exang | oldpeak | slope | ca | thal | num | target
  | dummy (src : ColName) (v : Cell)
deriving DecidableEq

/-- A data frame, column-major: a list of (column name, column values),
in display order.  Mirrors a pandas `DataFrame`. -/
abbrev DF := List (ColName × List Cell)

/-- The ordered list of column names of a data frame. -/
def DF.names (df : DF) : List ColName := df.map Prod.fst

/-- Look a column up by name (pandas `df[name]`); `none` models `KeyError`. -/
def DF.col? (df : DF) (n : ColName) : Option (List Cell) :=
  (df.find? (fun p => decide (p.1 = n))).map Prod.snd

/-- Number of rows (length of the first column; pandas frames are uniform). -/
def DF.nrows (df : DF) : Nat :=
  match df with
  | [] => 0
  | p :: _ => p.2.length

/-- `heart_data.replace('?', np.nan)` (src line 19): every cell equal to the
sentinel string `"?"` becomes null; all other cells are unchanged. -/
def replaceSentinel (df : DF) : DF :=
  df.map (fun p => (p.1, p.2.map (fun c => if c = Cell.strv "?" then Cell.null else c)))

/-- Row `i` survives `dropna` iff no column holds a null there
(an out-of-range index counts as null, so ragged rows are dropped). -/
def rowKeep (df : DF) (i : Nat) : Bool :=
  df.all (fun p => !(decide (p.2.getD i Cell.null = Cell.null)))

/-- `heart_data.dropna()` (src line 20): keep exactly the rows in which no
column holds a null, preserving order. -/
def dropna (df : DF) : DF :=
  df.map (fun p =>
    (p.1, (List.range df.nrows).filterMap (fun i =>
      if rowKeep df i then p.2.get? i else none)))

/-- The Cleaner stage (src lines 19–20): sentinel replacement then
null-row dropping. -/
def clean (df : DF) : DF := dropna (replaceSentinel df)

theorem mem_replaceSentinel_ne {df : DF} {p : ColName × List Cell} {c : Cell}
    (hp : p ∈ replaceSentinel df) (hc : c ∈ p.2) (hnn : c ≠ Cell.null) :
    c ≠ Cell.strv "?" := by
  rcases List.mem_map.mp hp with ⟨q, _, rfl⟩
  rcases List.mem_map.mp hc with ⟨c0, _, rfl⟩
  by_cases h : c0 = Cell.strv "?"
  · simp [h] at hnn
  · simp [h]

theorem clean_cell_ok {df : DF} {p : ColName × List Cell} {c : Cell}
    (hp : p ∈ clean df) (hc : c ∈ p.2) :
    c ≠ Cell.null ∧ c ≠ Cell.strv "?" := by
  unfold clean dropna at hp
  rcases List.mem_map.mp hp with ⟨q, hq, rfl⟩
  rcases List.mem_filterMap.mp hc with ⟨i, _, hi⟩
  by_cases hk : rowKeep (replaceSentinel df) i = true
  · rw [if_pos hk] at hi
    rw [List.get?_eq_getElem?] at hi
    have hmem : c ∈ q.2 := List.getElem?_mem hi
    have hget : q.2.getD i Cell.null = c := by
      simp [List.getD, hi]
    have hq2 := (List.all_eq_true.mp hk) q hq
    have hnn : c ≠ Cell.null := by
      rw [hget] at hq2
      simpa using hq2
    exact ⟨hnn, mem_replaceSentinel_ne hq hmem hnn⟩
  · rw [if_neg hk] at hi
    exact absurd hi (by simp)

theorem cellKeep_iff (l : List Cell) (i : Nat) :
    ((l.map (fun c => if c = Cell.strv "?" then Cell.null else c)).getD i Cell.null ≠ Cell.null) ↔
      (l.getD i Cell.null ≠ Cell.null ∧ l.getD i Cell.null ≠ Cell.strv "?") := by
  simp only [List.getD, List.get?_eq_getElem?, List.getElem?_map]
  rcases h : l[i]? with _ | c
  · simp
  · by_cases hc : c = Cell.strv "?" <;> simp [hc]

theorem rowKeep_replaceSentinel_iff (df : DF) (i : Nat) :
    rowKeep (replaceSentinel df) i = true ↔
      ∀ p ∈ df, p.2.getD i Cell.null ≠ Cell.null ∧ p.2.getD i Cell.null ≠ Cell.strv "?" := by
  unfold rowKeep replaceSentinel
  rw [List.all_eq_true]
  constructor
  · intro h p hp
    have h2 := h _ (List.mem_map_of_mem _ hp)
    exact (cellKeep_iff p.2 i).mp (by simpa using h2)
  · intro h q hq
    rcases List.mem_map.mp hq with ⟨p, hp, rfl⟩
    simpa using (cellKeep_iff p.2 i).mpr (h p hp)

/-- C4: the Cleaner's output contains no nulls and no `"?"` sentinels in any
column of any remaining row, and a row of the input survives exactly when
none of its cells is null or the sentinel (no imputation: surviving cells
are original cells). -/
theorem cleaner_output_clean (df : DF) :
    (∀ p ∈ clean df, ∀ c ∈ p.2, c ≠ Cell.null ∧ c ≠ Cell.strv "?") ∧
    (∀ i, rowKeep (replaceSentinel df) i = true ↔
      ∀ p ∈ df, p.2.getD i Cell.null ≠ Cell.null ∧ p.2.getD i Cell.null ≠ Cell.strv "?") :=
  ⟨fun _ hp _ hc => clean_cell_ok hp hc, fun i => rowKeep_replaceSentinel_iff df i⟩

/-- A small raw data frame with one sentinel cell and one null cell. -/
def cleanerExampleDF : DF :=
  [(ColName.age, [Cell.val 50, Cell.strv "?", Cell.val 60]),
   (ColName.chol, [Cell.val 200, Cell.val 210, Cell.null])]

theorem cleaner_output_clean_witness :
    ((ColName.age, [Cell.val 50]) ∈ clean cleanerExampleDF) ∧
    (Cell.val 50 ≠ Cell.null ∧ Cell.val 50 ≠ Cell.strv "?") ∧
    (rowKeep (replaceSentinel cleanerExampleDF) 0 = true) :=
  ⟨by decide,
   (cleaner_output_clean cleanerExampleDF).1 (ColName.age, [Cell.val 50])
     (by decide) (Cell.val 50) (by decide),
   ((cleaner_output_clean cleanerExampleDF).2 0).mpr (by decide)⟩

/-- A total comparison on cells, ranking `null < val _ < strv _` and comparing
values inside a constructor by their own order.  Within one homogeneous pandas
column this coincides with the category sort pandas applies. -/
def Cell.leb : Cell → Cell → Bool
  | Cell.null, _ => true
  | Cell.val _, Cell.null => false
  | Cell.val a, Cell.val b => decide (a ≤ b)
  | Cell.val _, Cell.strv _ => true
  | Cell.strv _, Cell.null => false
  | Cell.strv _, Cell.val _ => false
  | Cell.strv a, Cell.strv b => decide (a ≤ b)

/-- `Cell.leb` as a relation. -/
def cellLe (a b : Cell) : Prop := Cell.leb a b = true

instance instDecCellLe : DecidableRel cellLe := fun a b => by
  unfold cellLe
  infer_instance

theorem cellLe_total (a b : Cell) : cellLe a b ∨ cellLe b a := by
  cases a <;> cases b <;> simp [cellLe, Cell.leb] <;> exact le_total _ _

theorem cellLe_trans {a b c : Cell} (h1 : cellLe a b) (h2 : cellLe b c) : cellLe a c := by
  cases a <;> cases b <;> cases c <;> simp_all [cellLe, Cell.leb] <;> exact le_trans h1 h2

instance : IsTotal Cell cellLe := ⟨cellLe_total⟩

instance : IsTrans Cell cellLe := ⟨fun _ _ _ => cellLe_trans⟩

/-- Sort by `cellLe`; models the ascending category sort that
`pandas.Categorical` (hence `pd.get_dummies`) applies to the distinct values. -/
def sortCells (l : List Cell) : List Cell := List.insertionSort cellLe l

/-- Distinct values in order of first appearance. -/
def uniqueInOrder (l : List Cell) : List Cell :=
  l.foldl (fun acc v => if v ∈ acc then acc else acc ++ [v]) []

def nonnullValues (l : List Cell) : List Cell :=
  l.filter (fun c => !(decide (c = Cell.null)))

/-- The categories of a column as `pd.get_dummies` computes them: the distinct
non-null values, sorted ascending. -/
def categoriesOf (l : List Cell) : List Cell :=
  sortCells (uniqueInOrder (nonnullValues l))

/-- One indicator column per category, grouped and in category order. -/
def dummyCols (src : ColName) (cats : List Cell) (l : List Cell) : DF :=
  cats.map (fun c =>
    (ColName.dummy src c, l.map (fun v => if v = c then Cell.val 1 else Cell.val 0)))

/-- `pd.get_dummies(df[src], prefix=..., drop_first=True)` (src lines 28–31):
indicator columns for every category except the first (smallest) one. -/
def getDummies (src : ColName) (l : List Cell) : DF :=
  dummyCols src ((categoriesOf l).drop 1) l

/-- Pandas column assignment `df[n] = v`: overwrite in place if the column
exists, otherwise append it on the right. -/
def setCol (df : DF) (n : ColName) (v : List Cell) : DF :=
  if n ∈ df.names then df.map (fun p => if p.1 = n then (n, v) else p)
  else df ++ [(n, v)]

/-- `df.drop(ns, axis=1)`. -/
def dropCols (df : DF) (ns : List ColName) : DF :=
  df.filter (fun p => decide (p.1 ∉ ns))

/-- The four categorical source columns (src line 33). -/
def catCols : List ColName :=
  [ColName.cp, ColName.restecg, ColName.slope, ColName.thal]

/-- `lambda x: 1 if x > 0 else 0` applied to a cell (src line 36). -/
def Cell.posB : Cell → Bool
  | Cell.val q => decide (0 < q)
  | _ => false

/-- Missing-column lookup failure, pandas `KeyError`. -/
def keyErr {α : Type} : Option α → Except String α
  | none => Except.error "KeyError"
  | some a => Except.ok a

/-- The Encoder stage (src lines 27–37): read the four categorical columns,
concatenate their drop-first indicator expansions on the right
(`pd.concat([heart_data, cp, restecg, slope, thal], axis=1)`), drop the four
source columns, derive `target` from `num`, drop `num`.  A missing column is
a `KeyError`, aborting the stage. -/
def encode (df : DF) : Except String DF := do
  let cpCol ← keyErr (df.col? ColName.cp)
  let reCol ← keyErr (df.col? ColName.restecg)
  let slCol ← keyErr (df.col? ColName.slope)
  let thCol ← keyErr (df.col? ColName.thal)
  let withDummies := df ++ getDummies ColName.cp cpCol ++ getDummies ColName.restecg reCol
      ++ getDummies ColName.slope slCol ++ getDummies ColName.thal thCol
  let dropped := dropCols withDummies catCols
  let numCol ← keyErr (dropped.col? ColName.num)
  let withTarget := setCol dropped ColName.target
      (numCol.map (fun c => if c.posB then Cell.val 1 else Cell.val 0))
  pure (dropCols withTarget [ColName.num])

theorem names_append (df1 df2 : DF) : (df1 ++ df2).names = df1.names ++ df2.names :=
  List.map_append _ _ _

theorem names_filter (df : DF) (q : ColName → Bool) :
    DF.names (df.filter (fun p => q p.1)) = (DF.names df).filter q := by
  induction df with
  | nil => rfl
  | cons p t ih =>
      unfold DF.names at ih ⊢
      by_cases h : q p.1 = true <;> simp [List.filter_cons, h, ih]

theorem names_dropCols (df : DF) (ns : List ColName) :
    DF.names (dropCols df ns) = (DF.names df).filter (fun n => decide (n ∉ ns)) := by
  unfold dropCols
  exact names_filter df (fun n => decide (n ∉ ns))

theorem names_dummyCols (src : ColName) (cats : List Cell) (l : List Cell) :
    DF.names (dummyCols src cats l) = cats.map (ColName.dummy src) := by
  simp [dummyCols, DF.names, List.map_map]

theorem col?_eq_none_iff (df : DF) (n : ColName) :
    df.col? n = none ↔ n ∉ DF.names df := by
  unfold DF.col? DF.names
  rw [Option.map_eq_none', List.find?_eq_none]
  constructor
  · intro h hmem
    rcases List.mem_map.mp hmem with ⟨p, hp, rfl⟩
    have h2 := h p hp
    simp at h2
  · intro h p hp
    simp only [decide_eq_true_eq]
    exact fun hpn => h (hpn ▸ List.mem_map_of_mem Prod.fst hp)

theorem col?_append_left {df1 : DF} {n : ColName} {v : List Cell} (df2 : DF)
    (h : df1.col? n = some v) : (df1 ++ df2).col? n = some v := by
  unfold DF.col? at h ⊢
  rw [List.find?_append]
  rcases h1 : df1.find? (fun p => decide (p.1 = n)) with _ | p
  · rw [h1] at h; simp at h
  · rw [h1] at h
    rw [h1, Option.or_some]
    exact h

theorem col?_append_right {df1 : DF} {n : ColName} (df2 : DF)
    (h : n ∉ DF.names df1) : (df1 ++ df2).col? n = df2.col? n := by
  unfold DF.col?
  rw [List.find?_append, (List.find?_eq_none).mpr, Option.none_or]
  intro p hp
  simp only [decide_eq_true_eq]
  intro hpn
  exact h (hpn ▸ List.mem_map_of_mem Prod.fst hp)

theorem col?_dropCols {df : DF} {n : ColName} {ns : List ColName}
    (h : n ∉ ns) : (dropCols df ns).col? n = df.col? n := by
  induction df with
  | nil => rfl
  | cons p t ih =>
      unfold dropCols at ih ⊢
      rw [List.filter_cons]
      by_cases hn : p.1 = n
      · have hnot : (p.1 ∉ ns) := fun hc => h (hn ▸ hc)
        rw [if_pos (by simpa using hnot)]
        unfold DF.col?
        rw [List.find?_cons_of_pos _ (by simpa using hn),
          List.find?_cons_of_pos _ (by simpa using hn)]
      · by_cases hmem : p.1 ∈ ns
        · rw [if_neg (by simpa using hmem)]
          unfold DF.col? at ih ⊢
          rw [List.find?_cons_of_neg _ (by simpa using hn)]
          exact ih
        · rw [if_pos (by simpa using hmem)]
          unfold DF.col? at ih ⊢
          rw [List.find?_cons_of_neg _ (by simpa using hn),
            List.find?_cons_of_neg _ (by simpa using hn)]
          exact ih

theorem col?_mapReplace_self (df : DF) (n : ColName) (v : List Cell)
    (h : n ∈ DF.names df) :
    DF.col? (df.map (fun p => if p.1 = n then (n, v) else p)) n = some v := by
  induction df with
  | nil => simp [DF.names] at h
  | cons q t ih =>
      rw [List.map_cons]
      by_cases hq : q.1 = n
      · rw [if_pos hq]
        unfold DF.col?
        rw [List.find?_cons_of_pos _ (by simp)]
        simp
      · rw [if_neg hq]
        unfold DF.col? at ih ⊢
        rw [List.find?_cons_of_neg _ (by simpa using hq)]
        have h2 : n ∈ q.1 :: DF.names t := h
        rcases List.mem_cons.mp h2 with h3 | h3
        · exact absurd h3.symm hq
        · exact ih h3

theorem col?_setCol_self (df : DF) (n : ColName) (v : List Cell) :
    (setCol df n v).col? n = some v := by
  unfold setCol
  by_cases h : n ∈ DF.names df
  · rw [if_pos h]
    exact col?_mapReplace_self df n v h
  · rw [if_neg h, col?_append_right _ h]
    simp [DF.col?]

theorem col?_mapReplace_ne (df : DF) {m n : ColName} (v : List Cell) (h : m ≠ n) :
    DF.col? (df.map (fun p => if p.1 = n then (n, v) else p)) m = df.col? m := by
  induction df with
  | nil => rfl
  | cons q t ih =>
      rw [List.map_cons]
      by_cases hq : q.1 = n
      · rw [if_pos hq]
        unfold DF.col? at ih ⊢
        rw [List.find?_cons_of_neg _ (by simpa using Ne.symm h),
          List.find?_cons_of_neg _ (by simp [hq]; exact Ne.symm h)]
        exact ih
      · rw [if_neg hq]
        unfold DF.col? at ih ⊢
        by_cases hqm : q.1 = m
        · rw [List.find?_cons_of_pos _ (by simpa using hqm),
            List.find?_cons_of_pos _ (by simpa using hqm)]
        · rw [List.find?_cons_of_neg _ (by simpa using hqm),
            List.find?_cons_of_neg _ (by simpa using hqm)]
          exact ih

theorem col?_setCol_ne {df : DF} {m n : ColName} (v : List Cell)
    (h : m ≠ n) : (setCol df n v).col? m = df.col? m := by
  unfold setCol
  by_cases hmem : n ∈ DF.names df
  · rw [if_pos hmem]
    exact col?_mapReplace_ne df v h
  · rw [if_neg hmem]
    unfold DF.col?
    rw [List.find?_append]
    have hsing : [(n, v)].find? (fun p => decide (p.1 = m)) = none := by
      simp [Ne.symm h]
    rw [hsing, Option.or_none]

theorem keyErr_some {α : Type} (a : α) : keyErr (some a) = Except.ok a := rfl

theorem bindOk_str {α β : Type} (a : α) (f : α → Except String β) :
    (Bind.bind (Except.ok a) f : Except String β) = f a := rfl

/-- The full frame after concatenating the four indicator expansions
(src line 32). -/
def withDummies (df : DF) (cpCol reCol slCol thCol : List Cell) : DF :=
  df ++ getDummies ColName.cp cpCol ++ getDummies ColName.restecg reCol
    ++ getDummies ColName.slope slCol ++ getDummies ColName.thal thCol

/-- The `target` column derived from `num` (src line 36). -/
def targetOf (nums : List Cell) : List Cell :=
  nums.map (fun c => if c.posB then Cell.val 1 else Cell.val 0)

theorem encode_eq_ok (df : DF) (cpCol reCol slCol thCol nums : List Cell)
    (hcp : df.col? ColName.cp = some cpCol)
    (hre : df.col? ColName.restecg = some reCol)
    (hsl : df.col? ColName.slope = some slCol)
    (hth : df.col? ColName.thal = some thCol)
    (hnum : df.col? ColName.num = some nums) :
    encode df = Except.ok
      (dropCols (setCol (dropCols (withDummies df cpCol reCol slCol thCol) catCols)
        ColName.target (targetOf nums)) [ColName.num]) := by
  have h1 : (withDummies df cpCol reCol slCol thCol).col? ColName.num = some nums := by
    unfold withDummies
    exact col?_append_left _ (col?_append_left _ (col?_append_left _ (col?_append_left _ hnum)))
  have h2 : (dropCols (withDummies df cpCol reCol slCol thCol) catCols).col? ColName.num
      = some nums := by
    rw [col?_dropCols (by decide)]
    exact h1
  simp only [encode, hcp, hre, hsl, hth, keyErr_some, bindOk_str, withDummies, targetOf] at h2 ⊢
  simp only [h2, keyErr_some, bindOk_str]
  rfl

/-- C5: for every data frame holding the `num` column (and the four
categorical columns, so that the Encoder succeeds), the Encoder derives a
`target` column whose cell in each row is 1 exactly when that row's `num`
value is greater than zero and 0 otherwise, and the original `num` column is
absent from the Encoder's output. -/
theorem encoder_target_derivation (df : DF) (cpCol reCol slCol thCol nums : List Cell)
    (hcp : df.col? ColName.cp = some cpCol)
    (hre : df.col? ColName.restecg = some reCol)
    (hsl : df.col? ColName.slope = some slCol)
    (hth : df.col? ColName.thal = some thCol)
    (hnum : df.col? ColName.num = some nums) :
    ∃ d, encode df = Except.ok d ∧
      d.col? ColName.target =
        some (nums.map (fun c => if c.posB then Cell.val 1 else Cell.val 0)) ∧
      ColName.num ∉ DF.names d := by
  refine ⟨_, encode_eq_ok df cpCol reCol slCol thCol nums hcp hre hsl hth hnum, ?_, ?_⟩
  · rw [col?_dropCols (by decide), col?_setCol_self]
    rfl
  · intro hmem
    rw [names_dropCols] at hmem
    have h3 := (List.mem_filter.mp hmem).2
    simp at h3

/-- A small complete data frame for exercising the Encoder: note the `cp`
values appear in the order 2, 1 (descending), while `pd.get_dummies` sorts
categories ascending. -/
def encoderExampleDF : DF :=
  [(ColName.age, [Cell.val 50, Cell.val 60]),
   (ColName.cp, [Cell.val 2, Cell.val 1]),
   (ColName.restecg, [Cell.val 0, Cell.val 0]),
   (ColName.slope, [Cell.val 1, Cell.val 2]),
   (ColName.thal, [Cell.val 3, Cell.val 3]),
   (ColName.num, [Cell.val 0, Cell.val 2])]

theorem encoder_target_derivation_witness :
    (encoderExampleDF.col? ColName.num = some [Cell.val 0, Cell.val 2]) ∧
    ∃ d, encode encoderExampleDF = Except.ok d ∧
      d.col? ColName.target =
        some ([Cell.val 0, Cell.val 2].map (fun c => if c.posB then Cell.val 1 else Cell.val 0)) ∧
      ColName.num ∉ DF.names d :=
  ⟨by decide,
   encoder_target_derivation encoderExampleDF
     [Cell.val 2, Cell.val 1] [Cell.val 0, Cell.val 0] [Cell.val 1, Cell.val 2]
     [Cell.val 3, Cell.val 3] [Cell.val 0, Cell.val 2]
     (by decide) (by decide) (by decide) (by decide) (by decide)⟩

/-- The names of the indicator group that `pd.get_dummies(df[src],
drop_first=True)` contributes: the distinct non-null values of the source
column sorted ascending, minus the first (smallest) one, in that order. -/
def dummyNames (src : ColName) (l : List Cell) : List ColName :=
  ((categoriesOf l).drop 1).map (ColName.dummy src)

theorem names_getDummies (src : ColName) (l : List Cell) :
    DF.names (getDummies src l) = dummyNames src l := by
  unfold getDummies dummyNames
  exact names_dummyCols src _ l

theorem filter_dummyNames (src : ColName) (l : List Cell) (q : ColName → Bool)
    (hq : ∀ v, q (ColName.dummy src v) = true) :
    (dummyNames src l).filter q = dummyNames src l := by
  refine List.filter_eq_self.mpr ?_
  intro a ha
  rcases List.mem_map.mp ha with ⟨v, _, rfl⟩
  exact hq v

theorem target_not_mem_dummyNames (src : ColName) (l : List Cell) :
    ColName.target ∉ dummyNames src l := by
  intro h
  rcases List.mem_map.mp h with ⟨v, _, hv⟩
  exact absurd hv.symm (by simp)

theorem sorted_categoriesOf (l : List Cell) : (categoriesOf l).Sorted cellLe := by
  unfold categoriesOf sortCells
  exact List.sorted_insertionSort cellLe _

/-- C3 (amended): the Encoder's output column order is the original columns
(minus the four categorical sources and `num`) first, then the indicator
columns grouped by source column in the order `cp`, `restecg`, `slope`,
`thal`, each group ordered by the ASCENDING SORT of the source column's
distinct values with the first (smallest) value dropped as the reference —
not by order of first appearance — and finally the derived `target`. -/
theorem encoder_column_order (df : DF) (cpCol reCol slCol thCol nums : List Cell)
    (hcp : df.col? ColName.cp = some cpCol)
    (hre : df.col? ColName.restecg = some reCol)
    (hsl : df.col? ColName.slope = some slCol)
    (hth : df.col? ColName.thal = some thCol)
    (hnum : df.col? ColName.num = some nums)
    (htgt : ColName.target ∉ DF.names df) :
    ∃ d, encode df = Except.ok d ∧
      DF.names d =
        (DF.names df).filter
          (fun n => decide (n ∉ [ColName.num]) && decide (n ∉ catCols))
        ++ dummyNames ColName.cp cpCol ++ dummyNames ColName.restecg reCol
        ++ dummyNames ColName.slope slCol ++ dummyNames ColName.thal thCol
        ++ [ColName.target] ∧
      (categoriesOf cpCol).Sorted cellLe ∧ (categoriesOf reCol).Sorted cellLe ∧
      (categoriesOf slCol).Sorted cellLe ∧ (categoriesOf thCol).Sorted cellLe := by
  refine ⟨_, encode_eq_ok df cpCol reCol slCol thCol nums hcp hre hsl hth hnum, ?_,
    sorted_categoriesOf cpCol, sorted_categoriesOf reCol,
    sorted_categoriesOf slCol, sorted_categoriesOf thCol⟩
  have hwd : DF.names (withDummies df cpCol reCol slCol thCol) =
      DF.names df ++ dummyNames ColName.cp cpCol ++ dummyNames ColName.restecg reCol
        ++ dummyNames ColName.slope slCol ++ dummyNames ColName.thal thCol := by
    unfold withDummies
    rw [names_append, names_append, names_append, names_append,
      names_getDummies, names_getDummies, names_getDummies, names_getDummies]
  have hdropped : DF.names (dropCols (withDummies df cpCol reCol slCol thCol) catCols) =
      (DF.names df).filter (fun n => decide (n ∉ catCols))
        ++ dummyNames ColName.cp cpCol ++ dummyNames ColName.restecg reCol
        ++ dummyNames ColName.slope slCol ++ dummyNames ColName.thal thCol := by
    rw [names_dropCols, hwd]
    rw [List.filter_append, List.filter_append, List.filter_append, List.filter_append]
    rw [filter_dummyNames _ _ _ (fun v => by simp [catCols]),
      filter_dummyNames _ _ _ (fun v => by simp [catCols]),
      filter_dummyNames _ _ _ (fun v => by simp [catCols]),
      filter_dummyNames _ _ _ (fun v => by simp [catCols])]
  have htgt2 : ColName.target ∉
      DF.names (dropCols (withDummies df cpCol reCol slCol thCol) catCols) := by
    rw [hdropped]
    intro hmem
    simp only [List.mem_append] at hmem
    rcases hmem with ((((hmem | hmem) | hmem) | hmem) | hmem)
    · exact htgt (List.mem_filter.mp hmem).1
    · exact target_not_mem_dummyNames _ _ hmem
    · exact target_not_mem_dummyNames _ _ hmem
    · exact target_not_mem_dummyNames _ _ hmem
    · exact target_not_mem_dummyNames _ _ hmem
  rw [names_dropCols]
  unfold setCol
  rw [if_neg htgt2, names_append, hdropped]
  rw [List.filter_append, List.filter_append, List.filter_append,
    List.filter_append, List.filter_append]
  rw [List.filter_filter]
  rw [filter_dummyNames _ _ _ (fun v => by simp),
    filter_dummyNames _ _ _ (fun v => by simp),
    filter_dummyNames _ _ _ (fun v => by simp),
    filter_dummyNames _ _ _ (fun v => by simp)]
  have hlast : (DF.names [(ColName.target, targetOf nums)]).filter
      (fun n => decide (n ∉ [ColName.num])) = [ColName.target] := by
    simp [DF.names]
  simp only [DF.names, List.map_cons, List.map_nil] at hlast ⊢
  rw [hlast]

/-- Comparison variant following the SPEC'S WORDS for the claimed column
order: the indicator group ordered by the order in which the source column's
distinct values first appear (the first-appearing value being the dropped
reference), instead of the ascending sort the code's `pd.get_dummies`
actually applies. -/
def getDummiesSpecOrder (src : ColName) (l : List Cell) : DF :=
  dummyCols src ((uniqueInOrder (nonnullValues l)).drop 1) l

/-- The Encoder as the spec describes it, differing from `encode` only in the
claimed first-appearance ordering of each indicator group. -/
def encodeSpecOrder (df : DF) : Except String DF := do
  let cpCol ← keyErr (df.col? ColName.cp)
  let reCol ← keyErr (df.col? ColName.restecg)
  let slCol ← keyErr (df.col? ColName.slope)
  let thCol ← keyErr (df.col? ColName.thal)
  let withDum := df ++ getDummiesSpecOrder ColName.cp cpCol
      ++ getDummiesSpecOrder ColName.restecg reCol
      ++ getDummiesSpecOrder ColName.slope slCol ++ getDummiesSpecOrder ColName.thal thCol
  let dropped := dropCols withDum catCols
  let numCol ← keyErr (dropped.col? ColName.num)
  let withTarget := setCol dropped ColName.target
      (numCol.map (fun c => if c.posB then Cell.val 1 else Cell.val 0))
  pure (dropCols withTarget [ColName.num])

/-- C3 counterexample: on a frame whose `cp` values appear in the order 2, 1,
the code keeps the indicator for 2 (categories sorted ascending, smallest
dropped), while the spec's first-appearance ordering would keep the indicator
for 1.  The claimed column order is therefore wrong on this input. -/
theorem encoder_order_counterexample :
    Except.map DF.names (encode encoderExampleDF) =
      Except.ok [ColName.age, ColName.dummy ColName.cp (Cell.val 2),
        ColName.dummy ColName.slope (Cell.val 2), ColName.target] ∧
    Except.map DF.names (encodeSpecOrder encoderExampleDF) =
      Except.ok [ColName.age, ColName.dummy ColName.cp (Cell.val 1),
        ColName.dummy ColName.slope (Cell.val 2), ColName.target] ∧
    encode encoderExampleDF ≠ encodeSpecOrder encoderExampleDF := by
  have ha : Except.map DF.names (encode encoderExampleDF) =
      Except.ok [ColName.age, ColName.dummy ColName.cp (Cell.val 2),
        ColName.dummy ColName.slope (Cell.val 2), ColName.target] := by rfl
  have hb : Except.map DF.names (encodeSpecOrder encoderExampleDF) =
      Except.ok [ColName.age, ColName.dummy ColName.cp (Cell.val 1),
        ColName.dummy ColName.slope (Cell.val 2), ColName.target] := by rfl
  refine ⟨ha, hb, ?_⟩
  intro heq
  rw [heq, hb] at ha
  injection ha with h
  exact absurd h (by decide)

theorem encoder_column_order_witness :
    (encoderExampleDF.col? ColName.cp = some [Cell.val 2, Cell.val 1]) ∧
    (encoderExampleDF.col? ColName.num = some [Cell.val 0, Cell.val 2]) ∧
    (ColName.target ∉ DF.names encoderExampleDF) ∧
    ∃ d, encode encoderExampleDF = Except.ok d ∧
      DF.names d =
        (DF.names encoderExampleDF).filter
          (fun n => decide (n ∉ [ColName.num]) && decide (n ∉ catCols))
        ++ dummyNames ColName.cp [Cell.val 2, Cell.val 1]
        ++ dummyNames ColName.restecg [Cell.val 0, Cell.val 0]
        ++ dummyNames ColName.slope [Cell.val 1, Cell.val 2]
        ++ dummyNames ColName.thal [Cell.val 3, Cell.val 3]
        ++ [ColName.target] ∧
      (categoriesOf [Cell.val 2, Cell.val 1]).Sorted cellLe ∧
      (categoriesOf [Cell.val 0, Cell.val 0]).Sorted cellLe ∧
      (categoriesOf [Cell.val 1, Cell.val 2]).Sorted cellLe ∧
      (categoriesOf [Cell.val 3, Cell.val 3]).Sorted cellLe :=
  ⟨by decide, by decide, by decide,
   encoder_column_order encoderExampleDF
     [Cell.val 2, Cell.val 1] [Cell.val 0, Cell.val 0] [Cell.val 1, Cell.val 2]
     [Cell.val 3, Cell.val 3] [Cell.val 0, Cell.val 2]
     (by decide) (by decide) (by decide) (by decide) (by decide) (by decide)⟩

theorem bindErr_str {α β : Type} (e : String) (f : α → Except String β) :
    (Bind.bind (Except.error e) f : Except String β) = Except.error e := rfl

theorem encode_ok_shape {df d : DF} (h : encode df = Except.ok d) :
    ∃ cpCol reCol slCol thCol nums,
      df.col? ColName.cp = some cpCol ∧ df.col? ColName.restecg = some reCol ∧
      df.col? ColName.slope = some slCol ∧ df.col? ColName.thal = some thCol ∧
      (dropCols (withDummies df cpCol reCol slCol thCol) catCols).col? ColName.num
        = some nums ∧
      d = dropCols (setCol (dropCols (withDummies df cpCol reCol slCol thCol) catCols)
        ColName.target (targetOf nums)) [ColName.num] := by
  rcases hcp : df.col? ColName.cp with _ | cpCol
  · rw [encode, hcp] at h
    exact Except.noConfusion h
  rcases hre : df.col? ColName.restecg with _ | reCol
  · rw [encode, hcp, hre] at h
    exact Except.noConfusion h
  rcases hsl : df.col? ColName.slope with _ | slCol
  · rw [encode, hcp, hre, hsl] at h
    exact Except.noConfusion h
  rcases hth : df.col? ColName.thal with _ | thCol
  · rw [encode, hcp, hre, hsl, hth] at h
    exact Except.noConfusion h
  simp only [encode, hcp, hre, hsl, hth, keyErr_some, bindOk_str] at h
  rcases hnum : (dropCols (df ++ getDummies ColName.cp cpCol
      ++ getDummies ColName.restecg reCol ++ getDummies ColName.slope slCol
      ++ getDummies ColName.thal thCol) catCols).col? ColName.num with _ | nums
  · rw [hnum] at h
    exact Except.noConfusion h
  rw [hnum] at h
  simp only [keyErr_some, bindOk_str] at h
  refine ⟨cpCol, reCol, slCol, thCol, nums, rfl, rfl, rfl, rfl, ?_, ?_⟩
  · unfold withDummies
    exact hnum
  · unfold withDummies targetOf
    cases h
    rfl

theorem names_setCol (df : DF) (n : ColName) (v : List Cell) :
    DF.names (setCol df n v) =
      if n ∈ DF.names df then DF.names df else DF.names df ++ [n] := by
  unfold setCol
  by_cases h : n ∈ DF.names df
  · rw [if_pos h, if_pos h]
    unfold DF.names
    rw [List.map_map]
    refine List.map_congr_left ?_
    intro p hp
    by_cases hq : p.1 = n <;> simp [hq]
  · rw [if_neg h, if_neg h]
    exact names_append df _

/-- C9 (amended): re-encoding any successfully-encoded frame FAILS with a
`KeyError` (the categorical source column `cp` is gone from the output, so
the first `heart_data['cp']` access aborts); it is not a no-op. -/
theorem reencode_fails (df d : DF) (h : encode df = Except.ok d) :
    ColName.cp ∉ DF.names d ∧ encode d = Except.error "KeyError" := by
  obtain ⟨cpCol, reCol, slCol, thCol, nums, hcp, hre, hsl, hth, hnum, rfl⟩ :=
    encode_ok_shape h
  have hcpmem : ColName.cp ∉ DF.names (dropCols (setCol
      (dropCols (withDummies df cpCol reCol slCol thCol) catCols)
      ColName.target (targetOf nums)) [ColName.num]) := by
    rw [names_dropCols]
    intro hmem
    have h2 := (List.mem_filter.mp hmem).1
    rw [names_setCol] at h2
    have h3 : ColName.cp ∈
        DF.names (dropCols (withDummies df cpCol reCol slCol thCol) catCols) := by
      by_cases hc : ColName.target ∈
          DF.names (dropCols (withDummies df cpCol reCol slCol thCol) catCols)
      · rw [if_pos hc] at h2
        exact h2
      · rw [if_neg hc] at h2
        rcases List.mem_append.mp h2 with h4 | h4
        · exact h4
        · simp at h4
    rw [names_dropCols] at h3
    have h5 := (List.mem_filter.mp h3).2
    simp [catCols] at h5
  refine ⟨hcpmem, ?_⟩
  have hnone := (col?_eq_none_iff _ ColName.cp).mpr hcpmem
  rw [encode, hnone]
  rfl

/-- The encoded form of `encoderExampleDF`. -/
def encoderExampleEncoded : DF := (encode encoderExampleDF).toOption.getD []

/-- C9 counterexample: the Encoder applied to its own (categorical-free)
output is not the identity — it raises a `KeyError` on the missing `cp`
column instead of returning the frame unchanged. -/
theorem encoder_not_idempotent :
    encode encoderExampleDF = Except.ok encoderExampleEncoded ∧
    encode encoderExampleEncoded = Except.error "KeyError" ∧
    encode encoderExampleEncoded ≠ Except.ok encoderExampleEncoded := by
  refine ⟨by rfl, by rfl, ?_⟩
  intro h
  have h2 : Except.error (ε := String) "KeyError" = Except.ok encoderExampleEncoded := by
    rw [← h]
    rfl
  exact Except.noConfusion h2

theorem reencode_fails_witness :
    (encode encoderExampleDF = Except.ok encoderExampleEncoded) ∧
    (ColName.cp ∉ DF.names encoderExampleEncoded ∧
      encode encoderExampleEncoded = Except.error "KeyError") :=
  ⟨by rfl, reencode_fails encoderExampleDF encoderExampleEncoded (by rfl)⟩

/-- The three model identities, in the fixed evaluation order of the script. -/
inductive ModelName where
  | logisticRegression | randomForest | svclassifier
deriving DecidableEq

/-- `models = [logistic regression, random forest, SVC]` (src line 291). -/
def models : List ModelName :=
  [ModelName.logisticRegression, ModelName.randomForest, ModelName.svclassifier]

/-- `np.argmax` on a list: the index of the maximum value, the FIRST such
index when several entries attain the maximum (numpy's documented
tie-breaking).  The fold carries (best index so far, next index, best value
so far) and replaces the best only on a strict increase. -/
def npArgmax (l : List ℚ) : Nat :=
  (l.foldl (fun acc v =>
      if v > acc.2.2 then (acc.2.1, acc.2.1 + 1, v) else (acc.1, acc.2.1 + 1, acc.2.2))
    (0, 0, l.headD 0)).1

/-- `best_model = models[np.argmax(accuracies)]` (src lines 305–307). -/
def bestModel (lrAcc rfAcc svcAcc : ℚ) : ModelName :=
  models.getD (npArgmax [lrAcc, rfAcc, svcAcc]) ModelName.logisticRegression

/-- C6: the Evaluator picks the model of maximal accuracy, and on exact ties
the earliest in the order logistic regression, random forest, SVC: logistic
regression is chosen iff no other strictly exceeds it, random forest iff it
strictly beats logistic regression and is not strictly beaten by the SVC,
and the SVC only iff it strictly beats both. -/
theorem evaluator_argmax_selection (a b c : ℚ) :
    (a ≤ [a, b, c].getD (npArgmax [a, b, c]) 0 ∧
     b ≤ [a, b, c].getD (npArgmax [a, b, c]) 0 ∧
     c ≤ [a, b, c].getD (npArgmax [a, b, c]) 0) ∧
    (bestModel a b c = ModelName.logisticRegression ↔ (b ≤ a ∧ c ≤ a)) ∧
    (bestModel a b c = ModelName.randomForest ↔ (a < b ∧ c ≤ b)) ∧
    (bestModel a b c = ModelName.svclassifier ↔ (a < c ∧ b < c)) := by
  unfold bestModel npArgmax models
  simp only [List.foldl_cons, List.foldl_nil, List.headD_cons]
  split_ifs with h1 h2 h3 h4 h5 h6 h7 <;>
    simp_all [List.getD] <;>
    (repeat' constructor) <;>
    linarith

/-- Per-column mean that `StandardScaler.fit` computes from the train
partition (src lines 47–48). -/
def colMean (xs : List ℚ) : ℚ := xs.sum / xs.length

/-- Per-column population variance (`ddof = 0`) of the train partition, as
`StandardScaler.fit` computes it. -/
def colVar (xs : List ℚ) : ℚ :=
  ((xs.map (fun x => (x - colMean xs) ^ 2)).sum) / xs.length

/-- The per-column scale `StandardScaler` divides by: sqrt of the variance,
EXCEPT that a zero value is replaced by 1 (scikit-learn's
`_handle_zeros_in_scale`), so a zero-variance column never raises. -/
noncomputable def colScale (xs : List ℚ) : ℝ :=
  if colVar xs = 0 then 1 else Real.sqrt (colVar xs)

/-- `scaler.transform` of one value `x` of a column whose train partition is
`xs`: `(x - mean) / scale` (src lines 48–49); a total function — the Scaler
stage has no failure path. -/
noncomputable def standardize (xs : List ℚ) (x : ℚ) : ℝ :=
  ((x : ℝ) - (colMean xs : ℝ)) / colScale xs

/-- C1 counterexample: a constant (zero-variance) train column does NOT make
the Scaler fail: the zero standard deviation is silently replaced by 1 and
the column standardizes to zeros, so the pipeline continues to the model
stages instead of aborting. -/
theorem scaler_zero_variance_counterexample :
    colVar [5, 5, 5] = 0 ∧ colScale [5, 5, 5] = 1 ∧ standardize [5, 5, 5] 5 = 0 := by
  have hv : colVar [5, 5, 5] = 0 := by norm_num [colVar, colMean]
  have hm : colMean [5, 5, 5] = 5 := by norm_num [colMean]
  refine ⟨hv, ?_, ?_⟩
  · rw [colScale, if_pos hv]
  · rw [standardize, colScale, if_pos hv, hm]
    norm_num

/-- C1 (amended): on a zero-variance train column the Scaler does not fail:
it substitutes 1 for the zero scale, and every value of the column (all of
which equal the column mean) is standardized to exactly 0; the transform is
total, so the pipeline proceeds to produce evaluations. -/
theorem scaler_zero_variance_substitutes (xs : List ℚ) (x : ℚ)
    (hne : xs ≠ []) (hv : colVar xs = 0) :
    colScale xs = 1 ∧ (x ∈ xs → standardize xs x = 0) := by
  have hlen : (xs.length : ℚ) ≠ 0 :=
    Nat.cast_ne_zero.mpr (List.length_pos.mpr hne).ne'
  refine ⟨by rw [colScale, if_pos hv], ?_⟩
  intro hx
  have hsum : ((xs.map (fun x => (x - colMean xs) ^ 2)).sum) = 0 := by
    unfold colVar at hv
    rcases div_eq_zero_iff.mp hv with h | h
    · exact h
    · exact absurd h hlen
  have hterm : (x - colMean xs) ^ 2 = 0 := by
    refine List.all_zero_of_le_zero_le_of_sum_eq_zero ?_ hsum ?_
    · intro y hy
      rcases List.mem_map.mp hy with ⟨z, _, rfl⟩
      positivity
    · exact List.mem_map_of_mem _ hx
  have hxm : x = colMean xs := by
    have h2 := pow_eq_zero_iff (n := 2) (by norm_num) |>.mp hterm
    linarith [sub_eq_zero.mp h2]
  rw [standardize, colScale, if_pos hv, hxm]
  simp

theorem scaler_zero_variance_substitutes_witness :
    ([5, 5, 5] ≠ ([] : List ℚ)) ∧ colVar [5, 5, 5] = 0 ∧ (5 : ℚ) ∈ [5, 5, 5] ∧
    (colScale [5, 5, 5] = 1 ∧ standardize [5, 5, 5] 5 = 0) :=
  ⟨by decide, by norm_num [colVar, colMean], by decide,
   (scaler_zero_variance_substitutes [5, 5, 5] 5 (by decide)
     (by norm_num [colVar, colMean])).1,
   (scaler_zero_variance_substitutes [5, 5, 5] 5 (by decide)
     (by norm_num [colVar, colMean])).2 (by decide)⟩

def dotProd : List ℚ → List ℚ → ℚ
  | a :: as, b :: bs => a * b + dotProd as bs
  | _, _ => 0

/-- A fitted binary `LogisticRegression` (src line 235): a coefficient vector
and an intercept. -/
structure LogisticRegressionModel where
  coef : List ℚ
  intercept : ℚ

/-- The linear decision function `coef · x + intercept`. -/
def LogisticRegressionModel.decision (m : LogisticRegressionModel) (x : List ℚ) : ℚ :=
  dotProd m.coef x + m.intercept

/-- The logistic function `1 / (1 + exp(-t))`. -/
noncomputable def sigmoid (t : ℝ) : ℝ := 1 / (1 + Real.exp (-t))

/-- `lr.predict_proba(x)[:, 1]` (src line 262): the sigmoid of the decision
value. -/
noncomputable def LogisticRegressionModel.predictProba
    (m : LogisticRegressionModel) (x : List ℚ) : ℝ :=
  sigmoid ((m.decision x : ℚ) : ℝ)

/-- `lr.predict` (src line 237): scikit-learn labels the positive class iff
the decision value is STRICTLY positive (`(scores > 0).astype(int)`). -/
def LogisticRegressionModel.predict (m : LogisticRegressionModel) (x : List ℚ) : Nat :=
  if 0 < m.decision x then 1 else 0

/-- A fitted `RandomForestClassifier` (src line 243): a list of fitted trees,
each voting for the positive class or not on a given row. -/
structure RandomForestModel where
  trees : List (List ℚ → Bool)

/-- `rf.predict_proba(x)[:, 1]` (src line 268): the mean of the trees' votes
for the positive class. -/
def RandomForestModel.predictProba (m : RandomForestModel) (x : List ℚ) : ℚ :=
  ((m.trees.filter (fun t => t x)).length : ℚ) / (m.trees.length : ℚ)

/-- `rf.predict` (src line 245): argmax over the two class probabilities,
first index on a tie, so class 1 iff its probability STRICTLY exceeds 1/2. -/
def RandomForestModel.predict (m : RandomForestModel) (x : List ℚ) : Nat :=
  if 1 / 2 < m.predictProba x then 1 else 0

/-- A fitted `SVC(probability=True)` (src line 251): an abstract decision
function (the kernel expansion) together with the Platt-scaling parameters
`probA_`, `probB_` fitted by internal cross-validation. -/
structure SVCModel where
  dec : List ℚ → ℚ
  probA : ℚ
  probB : ℚ

/-- `svc.predict` (src line 253): the sign of the decision function. -/
def SVCModel.predict (m : SVCModel) (x : List ℚ) : Nat :=
  if 0 < m.dec x then 1 else 0

/-- `svc.predict_proba(x)[:, 1]` (src line 274): libsvm's Platt scaling
`1 / (1 + exp(probA * f + probB))`, i.e. `sigmoid (-(probA * f + probB))` —
computed from the decision value through the fitted scaling parameters, and
in general NOT consistent with the sign of `f` itself. -/
noncomputable def SVCModel.predictProba (m : SVCModel) (x : List ℚ) : ℝ :=
  sigmoid (-(((m.probA * m.dec x + m.probB : ℚ) : ℝ)))

theorem sigmoid_bounds (t : ℝ) : 0 ≤ sigmoid t ∧ sigmoid t ≤ 1 := by
  unfold sigmoid
  have hE : 0 < Real.exp (-t) := Real.exp_pos _
  constructor
  · positivity
  · rw [div_le_one (by linarith)]
    linarith

theorem half_lt_sigmoid_iff (t : ℝ) : 1 / 2 < sigmoid t ↔ 0 < t := by
  unfold sigmoid
  have hE : 0 < Real.exp (-t) := Real.exp_pos _
  rw [div_lt_div_iff₀ (by norm_num) (by linarith), one_mul]
  constructor
  · intro h
    have h2 : Real.exp (-t) < 1 := by linarith
    rw [← Real.exp_zero] at h2
    have h3 := Real.exp_lt_exp.mp h2
    linarith
  · intro h
    have h2 : Real.exp (-t) < 1 := by
      rw [← Real.exp_zero]
      exact Real.exp_lt_exp.mpr (by linarith)
    linarith

theorem rf_proba_bounds (m : RandomForestModel) (x : List ℚ) :
    0 ≤ m.predictProba x ∧ m.predictProba x ≤ 1 := by
  unfold RandomForestModel.predictProba
  rcases Nat.eq_zero_or_pos m.trees.length with h | h
  · rw [h]
    norm_num
  · have hpos : (0 : ℚ) < (m.trees.length : ℚ) := by exact_mod_cast h
    constructor
    · positivity
    · rw [div_le_one hpos]
      exact_mod_cast List.length_filter_le _ _

/-- C2 (amended): for every trained model and input row the predicted
positive-class probability lies in [0, 1]; but the claimed threshold rule
fails in general: logistic regression and random forest predict label 1 iff
the probability STRICTLY exceeds 0.5 (probability exactly 0.5 yields label
0, not 1), and the SVC's label follows the sign of its decision function,
which Platt scaling does not in general keep consistent with the 0.5
probability threshold. -/
theorem model_proba_bounds_and_thresholds (mlr : LogisticRegressionModel)
    (mrf : RandomForestModel) (msvc : SVCModel) (x : List ℚ) :
    (0 ≤ mlr.predictProba x ∧ mlr.predictProba x ≤ 1) ∧
    (0 ≤ mrf.predictProba x ∧ mrf.predictProba x ≤ 1) ∧
    (0 ≤ msvc.predictProba x ∧ msvc.predictProba x ≤ 1) ∧
    (mlr.predict x = 1 ↔ 1 / 2 < mlr.predictProba x) ∧
    (mrf.predict x = 1 ↔ 1 / 2 < mrf.predictProba x) ∧
    (msvc.predict x = 1 ↔ 0 < msvc.dec x) := by
  refine ⟨sigmoid_bounds _, rf_proba_bounds mrf x, sigmoid_bounds _, ?_, ?_, ?_⟩
  · unfold LogisticRegressionModel.predict LogisticRegressionModel.predictProba
    rw [half_lt_sigmoid_iff, Rat.cast_pos]
    by_cases hd : 0 < mlr.decision x <;> simp [hd]
  · unfold RandomForestModel.predict
    by_cases hd : 1 / 2 < mrf.predictProba x <;> simp [hd]
  · unfold SVCModel.predict
    by_cases hd : 0 < msvc.dec x <;> simp [hd]

/-- A logistic-regression model with zero coefficients and zero intercept:
its decision value is 0 on every row. -/
def lrThreshold : LogisticRegressionModel := ⟨[0], 0⟩

/-- C2 counterexample: at a zero decision value the logistic-regression
probability is exactly 0.5 but the predicted label is 0, so the claimed
`predict = 1 ↔ predict_probability ≥ 0.5` is false at this input. -/
theorem predict_threshold_counterexample :
    lrThreshold.predictProba [0] = 1 / 2 ∧ lrThreshold.predict [0] = 0 ∧
    ¬ (lrThreshold.predict [0] = 1 ↔ (1 / 2 : ℝ) ≤ lrThreshold.predictProba [0]) := by
  have hdec : lrThreshold.decision [0] = 0 := by
    norm_num [lrThreshold, LogisticRegressionModel.decision, dotProd]
  have hp : lrThreshold.predictProba [0] = 1 / 2 := by
    rw [LogisticRegressionModel.predictProba, hdec]
    norm_num [sigmoid, Real.exp_zero]
  have hpred : lrThreshold.predict [0] = 0 := by
    rw [LogisticRegressionModel.predict, hdec]
    norm_num
  refine ⟨hp, hpred, ?_⟩
  intro h
  have h1 := h.mpr (by rw [hp])
  rw [hpred] at h1
  exact absurd h1 (by norm_num)

/-- Deterministic pseudo-random generator state.  Stands in for the
`numpy.random.RandomState` Mersenne Twister stream that
`train_test_split(random_state=42)` seeds: a pure word stream fully
determined by the seed (the claims verified here depend only on that
determinism and on the shuffle being a permutation, not on the particular
word values). -/
structure Gen where
  state : Nat
deriving DecidableEq

def mkGen (seed : Nat) : Gen := ⟨seed % 2 ^ 64⟩

/-- One 64-bit linear-congruential step (Knuth's MMIX constants), with the
overflow taken mod 2^64 explicitly; returns the drawn word and next state.
(Kept irreducible: no property proved here depends on the word values.) -/
@[irreducible] def Gen.next (g : Gen) : Nat × Gen :=
  let s := (6364136223846793005 * g.state + 1442695040888963407) % 2 ^ 64
  (s / 2 ^ 33, ⟨s⟩)

/-- A draw uniform below `n` (numpy `rk_interval`): the next word reduced
below the bound. -/
def randBelow (g : Gen) (n : Nat) : Nat × Gen :=
  ((g.next).1 % n, (g.next).2)

/-- Exchange the entries at positions `a` and `b`. -/
def swapL (l : List Nat) (a b : Nat) : List Nat :=
  (l.set a (l.getD b 0)).set b (l.getD a 0)

/-- The Fisher–Yates shuffle exactly as `RandomState.shuffle` performs it:
for `i = n-1` down to `1`, draw `j` uniform in `[0, i]` and swap positions
`i` and `j`. -/
def fyLoop : Gen → List Nat → Nat → List Nat × Gen
  | g, l, 0 => (l, g)
  | g, l, i + 1 =>
      fyLoop (randBelow g (i + 2)).2 (swapL l (i + 1) (randBelow g (i + 2)).1) i

/-- `rng.permutation(n)`: a seeded shuffle of `range n`. -/
def permutation (seed n : Nat) : List Nat :=
  (fyLoop (mkGen seed) (List.range n) (n - 1)).1

theorem count_set_add (v x : Nat) : ∀ (l : List Nat) (i : Nat), i < l.length →
    (l.set i v).count x + (if l.getD i 0 = x then 1 else 0)
      = l.count x + (if v = x then 1 else 0) := by
  intro l
  induction l with
  | nil =>
      intro i h
      simp at h
  | cons a t ih =>
      intro i h
      cases i with
      | zero =>
          simp only [List.set_cons_zero, List.getD_cons_zero, List.count_cons, beq_iff_eq]
          split_ifs <;> omega
      | succ j =>
          have h2 : j < t.length := by simpa using h
          have h3 := ih j h2
          simp only [List.set_cons_succ, List.getD_cons_succ, List.count_cons, beq_iff_eq]
          split_ifs at h3 ⊢ <;> omega

theorem swapL_perm (l : List Nat) (a b : Nat) (ha : a < l.length) (hb : b < l.length) :
    (swapL l a b).Perm l := by
  rw [List.perm_iff_count]
  intro x
  unfold swapL
  have hb2 : b < (l.set a (l.getD b 0)).length := by simpa using hb
  have hg : (l.set a (l.getD b 0)).getD b 0 = l.getD b 0 := by
    rcases eq_or_ne a b with rfl | hne2
    · rw [List.getD_eq_getElem?_getD, List.getElem?_set_self (by simpa using hb)]
      rfl
    · rw [List.getD_eq_getElem?_getD, List.getD_eq_getElem?_getD,
        List.getElem?_set_ne hne2]
  have h1 := count_set_add (l.getD a 0) x (l.set a (l.getD b 0)) b hb2
  have h2 := count_set_add (l.getD b 0) x l a ha
  rw [hg] at h1
  split_ifs at h1 h2 <;> omega

theorem swapL_length (l : List Nat) (a b : Nat) : (swapL l a b).length = l.length := by
  simp [swapL]

theorem fyLoop_perm : ∀ (i : Nat) (g : Gen) (l : List Nat), i < l.length →
    ((fyLoop g l i).1).Perm l := by
  intro i
  induction i with
  | zero =>
      intro g l _
      exact List.Perm.refl l
  | succ j ih =>
      intro g l h
      simp only [fyLoop]
      have hj : (randBelow g (j + 2)).1 < j + 2 := by
        unfold randBelow
        exact Nat.mod_lt _ (by omega)
      have hb : (randBelow g (j + 2)).1 < l.length := by omega
      have hswap := swapL_perm l (j + 1) (randBelow g (j + 2)).1 h hb
      have ih2 := ih (randBelow g (j + 2)).2 (swapL l (j + 1) (randBelow g (j + 2)).1)
        (by rw [swapL_length]; omega)
      exact ih2.trans hswap

theorem permutation_perm (seed n : Nat) : (permutation seed n).Perm (List.range n) := by
  unfold permutation
  cases n with
  | zero => exact List.Perm.refl _
  | succ m =>
      have hm : m + 1 - 1 = m := by omega
      rw [hm]
      exact fyLoop_perm m (mkGen seed) (List.range (m + 1)) (by simp)

/-- `n_test = ceil(test_size * n_samples)` as sklearn's
`_validate_shuffle_split` computes it for a fractional `test_size`. -/
def nTest (ts : ℚ) (n : Nat) : Nat := ⌈ts * (n : ℚ)⌉₊

/-- `train_test_split(..., test_size=ts, random_state=seed)` index partition
(sklearn `ShuffleSplit._iter_indices`): a seeded permutation of the row
positions; the first `nTest` entries are the test rows, the remaining
`n - nTest` the train rows.  Returned as (train indices, test indices). -/
def splitIndices (seed : Nat) (ts : ℚ) (n : Nat) : List Nat × List Nat :=
  ((permutation seed n).drop (nTest ts n), (permutation seed n).take (nTest ts n))

/-- `df.iloc[idx]`: gather the given rows of every column, in index order. -/
def selectRows (df : DF) (idx : List Nat) : DF :=
  df.map (fun p => (p.1, idx.filterMap (fun i => p.2.get? i)))

/-- The Splitter stage (src line 44) applied to a feature frame:
`test_size=0.2` under the given seed, returning (train frame, test frame). -/
def splitDF (seed : Nat) (df : DF) : DF × DF :=
  (selectRows df (splitIndices seed (1 / 5) df.nrows).1,
   selectRows df (splitIndices seed (1 / 5) df.nrows).2)

theorem permutation_length (seed n : Nat) : (permutation seed n).length = n := by
  rw [(permutation_perm seed n).length_eq, List.length_range]

theorem nodup_take_disjoint_drop {α : Type} {l : List α} (h : l.Nodup) (n : Nat) :
    List.Disjoint (l.take n) (l.drop n) := by
  apply List.disjoint_of_nodup_append
  rw [List.take_append_drop]
  exact h

set_option maxRecDepth 4000 in
/-- C8: on an encoded frame of exactly 300 rows, the Splitter with test share
0.2 and seed 42 produces exactly 240 train row indices and 60 test row
indices, the two disjoint and together a permutation of all 300 row
positions. -/
theorem splitter_300_partition (df : DF) (h : df.nrows = 300) :
    (splitIndices 42 (1 / 5) df.nrows).1.length = 240 ∧
    (splitIndices 42 (1 / 5) df.nrows).2.length = 60 ∧
    (∀ i, i ∈ (splitIndices 42 (1 / 5) df.nrows).2 →
      i ∉ (splitIndices 42 (1 / 5) df.nrows).1) ∧
    ((splitIndices 42 (1 / 5) df.nrows).1 ++ (splitIndices 42 (1 / 5) df.nrows).2).Perm
      (List.range 300) := by
  rw [h]
  have hlen : (permutation 42 300).length = 300 := permutation_length 42 300
  have hnt : nTest (1 / 5) 300 = 60 := by
    unfold nTest
    norm_num
  have hnodup : (permutation 42 300).Nodup :=
    ((permutation_perm 42 300).nodup_iff).mpr (List.nodup_range 300)
  unfold splitIndices
  rw [hnt]
  refine ⟨?_, ?_, ?_, ?_⟩
  · rw [List.length_drop, hlen]
  · rw [List.length_take, hlen]
    omega
  · intro i hi
    exact nodup_take_disjoint_drop hnodup 60 hi
  · refine List.Perm.trans ?_ (permutation_perm 42 300)
    refine List.perm_append_comm.trans ?_
    rw [List.take_append_drop]

/-- A 300-row single-column frame. -/
def df300 : DF := [(ColName.age, List.replicate 300 (Cell.val 0))]

/-- Another 300-row frame with a different column and different contents. -/
def df300b : DF := [(ColName.chol, List.replicate 300 (Cell.val 7))]

theorem df300_nrows : df300.nrows = 300 := by
  show (List.replicate 300 (Cell.val 0)).length = 300
  rw [List.length_replicate]

theorem df300b_nrows : df300b.nrows = 300 := by
  show (List.replicate 300 (Cell.val 7)).length = 300
  rw [List.length_replicate]

theorem splitter_300_partition_witness :
    (df300.nrows = 300) ∧
    ((splitIndices 42 (1 / 5) df300.nrows).1.length = 240 ∧
     (splitIndices 42 (1 / 5) df300.nrows).2.length = 60 ∧
     (∀ i, i ∈ (splitIndices 42 (1 / 5) df300.nrows).2 →
       i ∉ (splitIndices 42 (1 / 5) df300.nrows).1) ∧
     ((splitIndices 42 (1 / 5) df300.nrows).1
        ++ (splitIndices 42 (1 / 5) df300.nrows).2).Perm (List.range 300)) :=
  ⟨df300_nrows, splitter_300_partition df300 df300_nrows⟩

/-- C7: the Splitter is deterministic.  The embedding of `train_test_split`
with `random_state=42` is a pure function of the seed and the frame, so two
runs on the same frame are the same application and assign exactly the same
rows to train and to test; moreover the index partition depends only on the
seed and the row count, never on the cell contents or on any ambient
state. -/
theorem splitter_deterministic (seed : Nat) (df1 df2 : DF)
    (h : df1.nrows = df2.nrows) :
    (splitDF seed df1).1 = selectRows df1 (splitIndices seed (1 / 5) df1.nrows).1 ∧
    (splitDF seed df1).2 = selectRows df1 (splitIndices seed (1 / 5) df1.nrows).2 ∧
    splitDF seed df1 = splitDF seed df1 ∧
    splitIndices seed (1 / 5) df1.nrows = splitIndices seed (1 / 5) df2.nrows :=
  ⟨rfl, rfl, rfl, by rw [h]⟩

theorem splitter_deterministic_witness :
    (df300.nrows = df300b.nrows) ∧
    ((splitDF 42 df300).1 = selectRows df300 (splitIndices 42 (1 / 5) df300.nrows).1 ∧
     (splitDF 42 df300).2 = selectRows df300 (splitIndices 42 (1 / 5) df300.nrows).2 ∧
     splitDF 42 df300 = splitDF 42 df300 ∧
     splitIndices 42 (1 / 5) df300.nrows = splitIndices 42 (1 / 5) df300b.nrows) :=
  ⟨by rw [df300_nrows, df300b_nrows],
   splitter_deterministic 42 df300 df300b (by rw [df300_nrows, df300b_nrows])⟩

theorem names_selectRows (df : DF) (idx : List Nat) :
    DF.names (selectRows df idx) = DF.names df := by
  unfold selectRows DF.names
  rw [List.map_map]
  rfl

/-- C10: the indicator columns are computed by the Encoder once, before the
split, and the Splitter only gathers rows; hence on every successfully
encoded frame the train feature frame and the test feature frame carry
exactly the encoded frame's column list — identical column sets in identical
order, so no category observed in only one partition can produce a column
missing from the other. -/
theorem train_test_same_columns (seed : Nat) (df e : DF)
    (_henc : encode df = Except.ok e) :
    DF.names (splitDF seed (dropCols e [ColName.target])).1
      = DF.names (dropCols e [ColName.target]) ∧
    DF.names (splitDF seed (dropCols e [ColName.target])).2
      = DF.names (dropCols e [ColName.target]) :=
  ⟨names_selectRows _ _, names_selectRows _ _⟩

theorem train_test_same_columns_witness :
    (encode encoderExampleDF = Except.ok encoderExampleEncoded) ∧
    (DF.names (splitDF 42 (dropCols encoderExampleEncoded [ColName.target])).1
       = DF.names (dropCols encoderExampleEncoded [ColName.target]) ∧
     DF.names (splitDF 42 (dropCols encoderExampleEncoded [ColName.target])).2
       = DF.names (dropCols encoderExampleEncoded [ColName.target])) :=
  ⟨by rfl, train_test_same_columns 42 encoderExampleDF encoderExampleEncoded (by rfl)⟩
